import Mathlib

/-!
Shallow embedding of the stack lifecycle manager of `cfctl` (package `aws`,
file `stack.go`, plus the message helpers of package `utils`).

Modelling conventions:
* Go `time.Time` is modelled as `Nat`; `0` is the zero (unset) value,
  `t1.After t2` is `t2 < t1`, `t1.Before t2` is `t1 < t2`.
* A remote call's behaviour is an explicit argument: the sequence of page
  responses the server would give to the successive paginated requests.  A
  page response is either a transport error or a pair of the page's items
  and a flag telling whether a continuation token (`NextToken`) is present.
* Go functions returning `(value, error)` become `Except String value` when
  the error case carries no partial value, and an explicit product when the
  source returns both a partial value and the error.
* A Go runtime panic (out-of-range index, method call on a nil interface)
  is a distinct `panic` outcome of the `GoResult` type.
-/

namespace Cfctl

/-- Message severities of `utils.MessageType`. -/
inductive MessageType where
  | info
  | warn
  | error
deriving DecidableEq

/-- Embedding of `utils.MsgFormat`: the source formats the message with
`fmt.Sprintf("%s", msg)`, ignoring the message type and the options, so it
is the identity on the message. -/
def MsgFormat (msg : String) (_ : MessageType) : String := msg

/-- Embedding of the `maxTemplateLength` constant of `stack.go`. -/
def maxTemplateLength : Nat := 51200

/-- The fields of `cloudformation.ValidateTemplateInput` that
`ValidateTemplate` sets: the request body and URL actually sent to the
remote validation endpoint. -/
structure ValidateTemplateInput where
  templateBody : Option String
  templateURL : Option String
deriving DecidableEq

/-- Embedding of `Stack.ValidateTemplate`.  The template body `tpl` is the
Go byte slice (modelled as a list of characters, only its length and
contents matter), `url` the template URL.  An `Except.error` is the local
`InvalidInputError` raised before any remote call; `Except.ok input` means
the remote validation endpoint is invoked with request `input`. -/
def validateTemplate (tpl : List Char) (url : String) : Except String ValidateTemplateInput :=
  if tpl.length = 0 ∧ url.length = 0 then
    .error (MsgFormat "Missing cloudformation template or template URLs" .error)
  else if tpl.length > 0 then
    if tpl.length > maxTemplateLength then
      .error (MsgFormat ("Exceeded maximum template size of " ++ toString maxTemplateLength ++ " bytes") .error)
    else
      .ok { templateBody := some (String.mk tpl), templateURL := none }
  else
    .ok { templateBody := none, templateURL := some url }

/-- A stack record (`cloudformation.Stack`); the manager never inspects its
fields, only passes it around, so one identifying field suffices. -/
structure CfStack where
  stackName : String
deriving DecidableEq

/-- Outcome of a Go call that can return a value, return an error, or hit a
runtime panic. -/
inductive GoResult (α : Type) where
  | ok (val : α)
  | err (msg : String)
  | panic (msg : String)
deriving DecidableEq

/-- Embedding of `Stack.DescribeStack`.  `resp` is the remote
`DescribeStacks` response for this stack name: a transport error or the
`Stacks` slice, whose entries are possibly-nil pointers (`Option`).  The
source returns `out.Stacks[0]` without checking that the slice is
non-empty, so an empty slice is an out-of-range panic. -/
def describeStack (resp : Except String (List (Option CfStack))) (stackName : String) :
    GoResult (Option CfStack) :=
  if stackName.length ≤ 0 then
    .err (MsgFormat "Missing stack name." .error)
  else
    match resp with
    | .error e => .err e
    | .ok [] => .panic "runtime error: index out of range"
    | .ok (s :: _) => .ok s

/-- Embedding of `Stack.Exist`: calls `DescribeStack` and maps any error or
nil record to `false`; a panic inside `DescribeStack` propagates. -/
def exist (resp : Except String (List (Option CfStack))) (stackName : String) : GoResult Bool :=
  match describeStack resp stackName with
  | .panic m => .panic m
  | .err _ => .ok false
  | .ok none => .ok false
  | .ok (some _) => .ok true

/-- A stack summary (`cloudformation.StackSummary`); `ListStacks` passes
the records through untouched, so one identifying field suffices. -/
structure StackSummary where
  stackName : String
deriving DecidableEq

/-- One page response of a paginated remote listing: a transport error, or
the page's items together with whether a continuation token (`NextToken`)
is present. -/
abbrev PageResp (α : Type) := Except String (List α × Bool)

/-- Embedding of the pagination loop of `Stack.ListStacks`: follow the
continuation tokens, appending each page's summaries (the source skips the
append when a page is empty, which appends nothing either way); on a page
error return the summaries accumulated so far together with the error. -/
def listStacks : List (PageResp StackSummary) → List StackSummary × Option String
  | [] => ([], none)
  | .error e :: _ => ([], some e)
  | .ok (xs, hasNext) :: rest =>
    if hasNext then
      (xs ++ (listStacks rest).1, (listStacks rest).2)
    else (xs, none)

/-- Embedding of the pagination loop of `Stack.DescribeStacks`: same shape
as `ListStacks`, over possibly-nil stack records; on a page error the
stacks accumulated so far are returned together with the error. -/
def describeStacks : List (PageResp (Option CfStack)) → List (Option CfStack) × Option String
  | [] => ([], none)
  | .error e :: _ => ([], some e)
  | .ok (xs, hasNext) :: rest =>
    if hasNext then
      (xs ++ (describeStacks rest).1, (describeStacks rest).2)
    else (xs, none)

/-- A stack event (`cloudformation.StackEvent`): timestamp (the ordering
and dedup key), logical resource id, resource status, optional reason. -/
structure StackEvent where
  timestamp : Nat
  logicalResourceId : String
  resourceStatus : String
  resourceStatusReason : Option String
deriving DecidableEq

/-- A concrete stack event used for instantiating theorems on small
inputs. -/
def sampleEvent (t : Nat) (r : String) : StackEvent :=
  { timestamp := t, logicalResourceId := r, resourceStatus := "CREATE_COMPLETE",
    resourceStatusReason := none }

/-- The per-event filter of `Stack.GetStackEvents`: the source skips an
event when `!timestamp.IsZero() && timestamp.After(*se.Timestamp)`, i.e.
keeps it unless the watermark is set and strictly greater than the event's
timestamp. -/
def eventAfterFilter (timestamp : Nat) (se : StackEvent) : Bool :=
  if timestamp ≠ 0 ∧ se.timestamp < timestamp then false else true

/-- Embedding of the pagination loop of `Stack.GetStackEvents`: each page's
events pass through `eventAfterFilter`; on a page error the source returns
`nil, err`, discarding everything accumulated (no partial result). -/
def getStackEventsPages (timestamp : Nat) :
    List (PageResp StackEvent) → Except String (List StackEvent)
  | [] => .ok []
  | .error e :: _ => .error e
  | .ok (xs, hasNext) :: rest =>
    if hasNext then
      match getStackEventsPages timestamp rest with
      | .error e => .error e
      | .ok more => .ok (xs.filter (eventAfterFilter timestamp) ++ more)
    else .ok (xs.filter (eventAfterFilter timestamp))

/-- Insertion into a timestamp-sorted event list. -/
def insertEvent (e : StackEvent) : List StackEvent → List StackEvent
  | [] => [e]
  | x :: xs => if e.timestamp ≤ x.timestamp then e :: x :: xs else x :: insertEvent e xs

/-- The final `sort.Slice(result, ...Before...)` of `Stack.GetStackEvents`,
modelled as insertion sort on the timestamp: the source's comparator is
`Timestamp.Before`, so the result is ascending in timestamp (the library
sort is unstable, so only the timestamp order is specified for ties). -/
def sortEvents : List StackEvent → List StackEvent
  | [] => []
  | x :: xs => insertEvent x (sortEvents xs)

/-- Embedding of `Stack.GetStackEvents`: aggregate the filtered pages, then
sort ascending by timestamp.  The stack name only shapes the remote
request, which is abstracted by `pages`. -/
def getStackEvents (stackName : String) (timestamp : Nat)
    (pages : List (PageResp StackEvent)) : Except String (List StackEvent) :=
  match stackName, getStackEventsPages timestamp pages with
  | _, .error e => .error e
  | _, .ok result => .ok (sortEvents result)

/-- Waiter type constant `StackWaiterTypeCreate`. -/
def StackWaiterTypeCreate : String := "create"

/-- Waiter type constant `StackWaiterTypeUpdate`. -/
def StackWaiterTypeUpdate : String := "update"

/-- Waiter type constant `StackWaiterTypeDelete`. -/
def StackWaiterTypeDelete : String := "delete"

/-- An AWS SDK error value (`awserr.Error`): carries an error code. -/
structure AwsErr where
  code : String
deriving DecidableEq

/-- An error returned by `GetStackEvents` inside the polling loop: either a
value implementing `awserr.Error`, or any other Go error. -/
inductive GoErr where
  | awsError (e : AwsErr)
  | plainError (msg : String)
deriving DecidableEq

/-- What the polling loop of `PollStackEvents` does with a `GetStackEvents`
error: return it (terminating the wait), keep looping, or panic. -/
inductive PollErrOutcome where
  | returnErr
  | continueLoop
  | nilPanic
deriving DecidableEq

/-- Embedding of the error branch of `Stack.PollStackEvents`: after
`awsErr, ok := err.(awserr.Error)`, the source returns the error when
`(waiterType != StackWaiterTypeDelete || !ok) && awsErr.Code() != "ValidationError"`
and otherwise continues the loop.  `&&` short-circuits only when its left
side is false; when the left side is true and the assertion failed
(`ok = false`), `awsErr` is a nil interface and `awsErr.Code()` is a nil
dereference panic. -/
def pollStackEventsErrCheck (waiterType : String) (err : GoErr) : PollErrOutcome :=
  let ok : Bool := match err with
    | .awsError _ => true
    | .plainError _ => false
  if waiterType ≠ StackWaiterTypeDelete ∨ ok = false then
    match err with
    | .awsError e => if e.code ≠ "ValidationError" then .returnErr else .continueLoop
    | .plainError _ => .nilPanic
  else
    .continueLoop

/-- Modelled from the spec (delete-tolerance rule, §4.6): the error is
benign, and the loop continues, exactly when the operation kind is delete
and the error is the server's validation-error class; every other error is
returned immediately.  Stated for comparison with the source's
`pollStackEventsErrCheck`. -/
def deleteToleranceRule (waiterType : String) (err : GoErr) : PollErrOutcome :=
  match err with
  | .awsError e =>
    if waiterType = StackWaiterTypeDelete ∧ e.code = "ValidationError" then .continueLoop
    else .returnErr
  | .plainError _ => .returnErr

/-- One step of the event-printing loop of `Stack.PollStackEvents`: the
accumulator is the list of events printed so far and `tmpTime`.  An event
is printed only when `timestamp.Before(*evnt.Timestamp)`; inside that
branch `tmpTime` is raised to the event's timestamp when smaller. -/
def pollPrintStep (timestamp : Nat) (acc : List StackEvent × Nat) (evnt : StackEvent) :
    List StackEvent × Nat :=
  if timestamp < evnt.timestamp then
    (acc.1 ++ [evnt], if acc.2 < evnt.timestamp then evnt.timestamp else acc.2)
  else acc

/-- One polling iteration's print phase of `Stack.PollStackEvents`: start
from `tmpTime := timestamp`, fold the fetched batch through
`pollPrintStep`, and return the printed events with the new watermark
(`timestamp = tmpTime` after the loop; an empty batch leaves the watermark
unchanged, as does the source's `len(events) > 0` guard). -/
def pollPrintBatch (timestamp : Nat) (events : List StackEvent) : List StackEvent × Nat :=
  events.foldl (pollPrintStep timestamp) ([], timestamp)

/-- A successful `GetStackEvents` fetch, as used by the polling loop: the
filtered, sorted aggregation of the server's pages for one iteration. -/
def fetchEventsOk (timestamp : Nat) (pages : List (List StackEvent)) : List StackEvent :=
  sortEvents (pages.flatten.filter (eventAfterFilter timestamp))

/-- The polling loop of `Stack.PollStackEvents` across successive
iterations whose fetches succeed: each iteration fetches with the current
watermark, prints, and advances the watermark; returns all printed events
in print order together with the final watermark. -/
def pollRun (timestamp : Nat) : List (List (List StackEvent)) → List StackEvent × Nat
  | [] => ([], timestamp)
  | pages :: rest =>
    ((pollPrintBatch timestamp (fetchEventsOk timestamp pages)).1 ++
       (pollRun (pollPrintBatch timestamp (fetchEventsOk timestamp pages)).2 rest).1,
     (pollRun (pollPrintBatch timestamp (fetchEventsOk timestamp pages)).2 rest).2)

/-! Theorems for claims C4, C5, C6, C10. -/

/-- C4: `ValidateTemplate` accepts a template body of exactly 51,200 bytes
(the remote request is made, carrying the body) and rejects any body of
51,201 bytes or more with a local `InvalidInputError`, making no remote
call. -/
theorem validateTemplate_size_boundary (tpl tpl2 : List Char) (url url2 : String)
    (h1 : tpl.length = 51200) (h2 : 51201 ≤ tpl2.length) :
    validateTemplate tpl url = .ok { templateBody := some (String.mk tpl), templateURL := none } ∧
    validateTemplate tpl2 url2 = .error "Exceeded maximum template size of 51200 bytes" := by
  constructor
  · unfold validateTemplate
    rw [if_neg (by rintro ⟨ha, -⟩; omega), if_pos (by omega),
      if_neg (by unfold maxTemplateLength; omega)]
  · unfold validateTemplate
    rw [if_neg (by rintro ⟨ha, -⟩; omega), if_pos (by omega),
      if_pos (by unfold maxTemplateLength; omega)]
    rfl

/-- C4 witness: a 51,200-byte body is accepted and a 51,201-byte body is
rejected locally. -/
theorem validateTemplate_size_boundary_witness :
    (List.replicate 51200 'a').length = 51200 ∧
    51201 ≤ (List.replicate 51201 'b').length ∧
    (validateTemplate (List.replicate 51200 'a') "" =
      .ok { templateBody := some (String.mk (List.replicate 51200 'a')), templateURL := none } ∧
     validateTemplate (List.replicate 51201 'b') "" =
      .error "Exceeded maximum template size of 51200 bytes") :=
  ⟨by rw [List.length_replicate], by rw [List.length_replicate],
   validateTemplate_size_boundary (List.replicate 51200 'a') (List.replicate 51201 'b') "" ""
     (by rw [List.length_replicate]) (by rw [List.length_replicate])⟩

/-- C5: with both body and URL empty, `ValidateTemplate` fails with a local
`InvalidInputError` before any remote call; with both non-empty, whenever a
remote request is made it carries the body and no URL (the URL is
ignored). -/
theorem validateTemplate_source_selection (tpl : List Char) (url : String)
    (inp : ValidateTemplateInput) (hne : tpl ≠ []) (hu : url ≠ "")
    (hok : validateTemplate tpl url = .ok inp) :
    validateTemplate [] "" = .error "Missing cloudformation template or template URLs" ∧
    inp.templateBody = some (String.mk tpl) ∧ inp.templateURL = none := by
  refine ⟨rfl, ?_⟩
  have hlen : tpl.length > 0 := List.length_pos.mpr hne
  unfold validateTemplate at hok
  rw [if_neg (by omega), if_pos hlen] at hok
  by_cases hbig : tpl.length > maxTemplateLength
  · rw [if_pos hbig] at hok
    exact absurd hok (by simp)
  · rw [if_neg hbig] at hok
    cases hok
    exact ⟨rfl, rfl⟩

/-- C5 witness: with body `"a"` and URL `"u"` both present, the request
carries the body and the URL field is empty. -/
theorem validateTemplate_source_selection_witness :
    (['a'] : List Char) ≠ [] ∧ ("u" : String) ≠ "" ∧
    validateTemplate ['a'] "u" = .ok { templateBody := some "a", templateURL := none } ∧
    (validateTemplate [] "" = .error "Missing cloudformation template or template URLs" ∧
     ValidateTemplateInput.templateBody { templateBody := some "a", templateURL := none } = some (String.mk ['a']) ∧
     ValidateTemplateInput.templateURL { templateBody := some "a", templateURL := none } = none) :=
  ⟨by simp, by simp, rfl,
   validateTemplate_source_selection ['a'] "u" { templateBody := some "a", templateURL := none }
     (by simp) (by simp) rfl⟩

/-- C6: `Exist` returns `true` exactly when `DescribeStack` succeeds with a
non-nil stack record; whenever `DescribeStack` returns an error — an empty
name or a transport error included — `Exist` swallows it and returns
`false`. -/
theorem exist_iff_describe (resp : Except String (List (Option CfStack))) (stackName : String) :
    (exist resp stackName = .ok true ↔ (∃ s, describeStack resp stackName = .ok (some s))) ∧
    (∀ msg, describeStack resp stackName = .err msg → exist resp stackName = .ok false) ∧
    (stackName.length = 0 → exist resp stackName = .ok false) ∧
    (∀ e, resp = .error e → exist resp stackName = .ok false) := by
  refine ⟨?_, ?_, ?_, ?_⟩
  · unfold exist
    cases hd : describeStack resp stackName with
    | ok v => cases v <;> simp
    | err m => simp
    | panic m => simp
  · intro msg hmsg
    unfold exist
    rw [hmsg]
  · intro hlen
    unfold exist describeStack
    rw [if_pos (by omega)]
  · intro e he
    subst he
    unfold exist describeStack
    by_cases hlen : stackName.length ≤ 0
    · rw [if_pos hlen]
    · rw [if_neg hlen]

/-- C6 witness: a transport error on describing stack `demo` makes
`DescribeStack` fail and `Exist` return `false`. -/
theorem exist_iff_describe_witness :
    describeStack (Except.error "transport") "demo" = .err "transport" ∧
    exist (Except.error "transport") "demo" = .ok false :=
  ⟨rfl, (exist_iff_describe (Except.error "transport") "demo").2.1 "transport" rfl⟩

/-- C10: on a successful remote response, `DescribeStack` returns the first
element of the `Stacks` slice with no emptiness check; with a non-empty
name and a successful but empty response, the index access is out of
bounds (a runtime panic), and `Exist` hits the same panic. -/
theorem describeStack_first_unchecked (stackName : String) (s : Option CfStack)
    (rest : List (Option CfStack)) (hname : 0 < stackName.length) :
    describeStack (.ok (s :: rest)) stackName = .ok s ∧
    describeStack (.ok []) stackName = .panic "runtime error: index out of range" ∧
    exist (.ok []) stackName = .panic "runtime error: index out of range" := by
  have hneg : ¬ stackName.length ≤ 0 := by omega
  refine ⟨?_, ?_, ?_⟩
  · unfold describeStack
    rw [if_neg hneg]
  · unfold describeStack
    rw [if_neg hneg]
  · unfold exist describeStack
    rw [if_neg hneg]

/-- C10 witness: describing stack `demo` when the server returns an empty
stack list panics rather than erroring. -/
theorem describeStack_first_unchecked_witness :
    0 < ("demo" : String).length ∧
    (describeStack (.ok [some { stackName := "demo" }]) "demo" = .ok (some { stackName := "demo" }) ∧
     describeStack (.ok []) "demo" = .panic "runtime error: index out of range" ∧
     exist (.ok []) "demo" = .panic "runtime error: index out of range") :=
  ⟨by decide, describeStack_first_unchecked "demo" (some { stackName := "demo" }) [] (by decide)⟩

/-- With the zero watermark, the page aggregation keeps every event of
every page, in page order. -/
theorem getStackEventsPages_zero (pagesL : List (List StackEvent)) :
    getStackEventsPages 0 (pagesL.map fun p => Except.ok (p, true)) =
      Except.ok pagesL.flatten := by
  induction pagesL with
  | nil => rfl
  | cons p ps ih =>
    simp [getStackEventsPages, ih, eventAfterFilter]

/-- C1: evaluation of the source's error branch against the claimed
delete-tolerance rule.  The source continues the loop on a ValidationError
AWS error during a create wait (the claim says any error during a create
wait is returned immediately), continues on a non-validation AWS error
during a delete wait (the claim says it is returned immediately), and
dereferences a nil interface on a non-AWS error; the claimed rule returns
the error in all three cases. -/
theorem pollStackEventsErrCheck_diverges :
    pollStackEventsErrCheck StackWaiterTypeCreate (.awsError { code := "ValidationError" }) =
      .continueLoop ∧
    deleteToleranceRule StackWaiterTypeCreate (.awsError { code := "ValidationError" }) =
      .returnErr ∧
    pollStackEventsErrCheck StackWaiterTypeDelete (.awsError { code := "AccessDenied" }) =
      .continueLoop ∧
    deleteToleranceRule StackWaiterTypeDelete (.awsError { code := "AccessDenied" }) =
      .returnErr ∧
    pollStackEventsErrCheck StackWaiterTypeDelete (.plainError "net timeout") = .nilPanic ∧
    deleteToleranceRule StackWaiterTypeDelete (.plainError "net timeout") = .returnErr := by
  refine ⟨?_, ?_, ?_, ?_, ?_, ?_⟩ <;> decide

/-- C7: on the first failing page, `ListStacks` and `DescribeStacks` return
the items accumulated from the pages already fetched together with the
error, while `GetStackEvents` returns the error with no partial result; on
success every aggregation concatenates the pages' items in page order, and
three pages of 2/2/1 distinct summaries yield one 5-element ordered result
with no duplicates (the event aggregation returns all delivered events,
additionally sorted by timestamp). -/
theorem pagination_aggregation_behavior (goodL : List (List StackSummary))
    (goodD : List (List (Option CfStack))) (goodE : List (List StackEvent))
    (lastL : List StackSummary) (lastD : List (Option CfStack))
    (e : String) (restL : List (PageResp StackSummary))
    (restD : List (PageResp (Option CfStack))) (restE : List (PageResp StackEvent))
    (name : String) :
    listStacks ((goodL.map fun xs => .ok (xs, true)) ++ .error e :: restL) =
      (goodL.flatten, some e) ∧
    describeStacks ((goodD.map fun xs => .ok (xs, true)) ++ .error e :: restD) =
      (goodD.flatten, some e) ∧
    getStackEvents name 0 ((goodE.map fun xs => .ok (xs, true)) ++ .error e :: restE) =
      .error e ∧
    listStacks ((goodL.map fun xs => .ok (xs, true)) ++ [.ok (lastL, false)]) =
      (goodL.flatten ++ lastL, none) ∧
    describeStacks ((goodD.map fun xs => .ok (xs, true)) ++ [.ok (lastD, false)]) =
      (goodD.flatten ++ lastD, none) ∧
    getStackEvents name 0 (goodE.map fun xs => .ok (xs, true)) =
      .ok (sortEvents goodE.flatten) ∧
    (listStacks [.ok ([{ stackName := "s1" }, { stackName := "s2" }], true),
        .ok ([{ stackName := "s3" }, { stackName := "s4" }], true),
        .ok ([{ stackName := "s5" }], false)] =
      ([{ stackName := "s1" }, { stackName := "s2" }, { stackName := "s3" },
        { stackName := "s4" }, { stackName := "s5" }], none) ∧
     ([{ stackName := "s1" }, { stackName := "s2" }, { stackName := "s3" },
       { stackName := "s4" }, { stackName := "s5" }] : List StackSummary).Nodup) := by
  refine ⟨?_, ?_, ?_, ?_, ?_, ?_, by decide, by decide⟩
  · induction goodL with
    | nil => rfl
    | cons p ps ih => simp [listStacks, ih]
  · induction goodD with
    | nil => rfl
    | cons p ps ih => simp [describeStacks, ih]
  · show getStackEvents name 0 _ = _
    unfold getStackEvents
    suffices h : getStackEventsPages 0 ((goodE.map fun xs => .ok (xs, true)) ++ .error e :: restE) = .error e by
      rw [h]
    induction goodE with
    | nil => rfl
    | cons p ps ih => simp [getStackEventsPages, ih]
  · induction goodL with
    | nil => simp [listStacks]
    | cons p ps ih => simp [listStacks, ih]
  · induction goodD with
    | nil => simp [describeStacks]
    | cons p ps ih => simp [describeStacks, ih]
  · show getStackEvents name 0 _ = _
    unfold getStackEvents
    rw [getStackEventsPages_zero goodE]

/-! Helper lemmas about the event sort of `GetStackEvents`. -/

/-- Inserting into a list permutes consing onto it. -/
theorem insertEvent_perm (e : StackEvent) (l : List StackEvent) :
    (insertEvent e l).Perm (e :: l) := by
  induction l with
  | nil => exact List.Perm.refl _
  | cons x xs ih =>
    unfold insertEvent
    by_cases h : e.timestamp ≤ x.timestamp
    · rw [if_pos h]
    · rw [if_neg h]
      exact (ih.cons x).trans (List.Perm.swap e x xs)

/-- The sort permutes its input. -/
theorem sortEvents_perm (l : List StackEvent) : (sortEvents l).Perm l := by
  induction l with
  | nil => exact List.Perm.refl _
  | cons x xs ih => exact (insertEvent_perm x (sortEvents xs)).trans (ih.cons x)

/-- Inserting into a timestamp-sorted list keeps it sorted. -/
theorem insertEvent_pairwise (e : StackEvent) (l : List StackEvent)
    (h : List.Pairwise (fun a b => a.timestamp ≤ b.timestamp) l) :
    List.Pairwise (fun a b => a.timestamp ≤ b.timestamp) (insertEvent e l) := by
  induction l with
  | nil => simp [insertEvent]
  | cons x xs ih =>
    rcases List.pairwise_cons.mp h with ⟨hx, hxs⟩
    unfold insertEvent
    by_cases hle : e.timestamp ≤ x.timestamp
    · rw [if_pos hle]
      refine List.pairwise_cons.mpr ⟨?_, h⟩
      intro b hb
      rcases List.mem_cons.mp hb with hb | hb
      · exact hb ▸ hle
      · exact le_trans hle (hx b hb)
    · rw [if_neg hle]
      refine List.pairwise_cons.mpr ⟨?_, ih hxs⟩
      intro b hb
      rcases List.mem_cons.mp ((insertEvent_perm e xs).mem_iff.mp hb) with hb | hb
      · rw [hb]
        exact le_of_not_le hle
      · exact hx b hb

/-- The sort output is ascending in timestamp. -/
theorem sortEvents_pairwise (l : List StackEvent) :
    List.Pairwise (fun a b => a.timestamp ≤ b.timestamp) (sortEvents l) := by
  induction l with
  | nil => simp [sortEvents]
  | cons x xs ih => exact insertEvent_pairwise x (sortEvents xs) ih

/-- An ascending list with pairwise-distinct timestamps is strictly
ascending. -/
theorem pairwise_lt_of_le_nodup (l : List StackEvent)
    (hs : List.Pairwise (fun a b => a.timestamp ≤ b.timestamp) l)
    (hn : (l.map StackEvent.timestamp).Nodup) :
    List.Pairwise (fun a b => a.timestamp < b.timestamp) l := by
  have hne : List.Pairwise (fun a b => a.timestamp ≠ b.timestamp) l :=
    List.pairwise_map.mp hn
  exact (hs.and hne).imp fun hab => lt_of_le_of_ne hab.1 hab.2

/-- C3: whenever `GetStackEvents` succeeds, its result is ascending in
timestamp for every server page order and content, and strictly ascending
when no two returned events share a timestamp. -/
theorem getStackEvents_sorted (name : String) (ts : Nat)
    (pages : List (PageResp StackEvent)) (result : List StackEvent)
    (h : getStackEvents name ts pages = .ok result) :
    List.Pairwise (fun a b => a.timestamp ≤ b.timestamp) result ∧
    ((result.map StackEvent.timestamp).Nodup →
      List.Pairwise (fun a b => a.timestamp < b.timestamp) result) := by
  unfold getStackEvents at h
  cases hp : getStackEventsPages ts pages with
  | error e => rw [hp] at h; exact absurd h (by simp)
  | ok l =>
    rw [hp] at h
    have hres : result = sortEvents l := by
      cases h
      rfl
    subst hres
    exact ⟨sortEvents_pairwise l, pairwise_lt_of_le_nodup _ (sortEvents_pairwise l)⟩

/-- C3 witness: two pages delivered in descending timestamp order come back
strictly ascending. -/
theorem getStackEvents_sorted_witness :
    getStackEvents "demo" 0
      [.ok ([sampleEvent 3 "c", sampleEvent 1 "a"], true), .ok ([sampleEvent 2 "b"], false)] =
      .ok [sampleEvent 1 "a", sampleEvent 2 "b", sampleEvent 3 "c"] ∧
    List.Pairwise (fun a b => a.timestamp ≤ b.timestamp)
      [sampleEvent 1 "a", sampleEvent 2 "b", sampleEvent 3 "c"] :=
  ⟨rfl,
   (getStackEvents_sorted "demo" 0
     [.ok ([sampleEvent 3 "c", sampleEvent 1 "a"], true), .ok ([sampleEvent 2 "b"], false)]
     [sampleEvent 1 "a", sampleEvent 2 "b", sampleEvent 3 "c"] rfl).1⟩

/-- Every event in a successful page aggregation passed the watermark
filter. -/
theorem getStackEventsPages_mem (ts : Nat) (pages : List (PageResp StackEvent))
    (l : List StackEvent) (h : getStackEventsPages ts pages = Except.ok l) :
    ∀ e ∈ l, eventAfterFilter ts e = true := by
  induction pages generalizing l with
  | nil =>
    intro e he
    have hl : l = ([] : List StackEvent) := by
      simpa [getStackEventsPages] using h.symm
    subst hl
    cases he
  | cons page rest ih =>
    intro e he
    cases page with
    | error msg => simp [getStackEventsPages] at h
    | ok pr =>
      obtain ⟨xs, hasNext⟩ := pr
      cases hasNext with
      | false =>
        have hl : xs.filter (eventAfterFilter ts) = l := by
          simpa [getStackEventsPages] using h
        rw [← hl] at he
        exact List.of_mem_filter he
      | true =>
        simp only [getStackEventsPages] at h
        cases hrec : getStackEventsPages ts rest with
        | error e2 =>
          rw [hrec] at h
          simp at h
        | ok more =>
          rw [hrec] at h
          simp at h
          rw [← h] at he
          rcases List.mem_append.mp he with hm | hm
          · exact List.of_mem_filter hm
          · exact ih more hrec e hm

/-- Surviving the watermark filter means the watermark is unset or at most
the event's timestamp. -/
theorem eventAfterFilter_imp (ts : Nat) (e : StackEvent)
    (h : eventAfterFilter ts e = true) : ts = 0 ∨ ts ≤ e.timestamp := by
  unfold eventAfterFilter at h
  by_cases hc : ts ≠ 0 ∧ e.timestamp < ts
  · rw [if_pos hc] at h
    cases h
  · omega

/-- Every event returned by a successful `GetStackEvents` call passed the
watermark filter. -/
theorem getStackEvents_ok_filter (name : String) (w : Nat)
    (pages : List (PageResp StackEvent)) (res : List StackEvent)
    (h : getStackEvents name w pages = .ok res) :
    ∀ e ∈ res, eventAfterFilter w e = true := by
  unfold getStackEvents at h
  cases hp : getStackEventsPages w pages with
  | error e2 =>
    rw [hp] at h
    exact absurd h (by simp)
  | ok l =>
    rw [hp] at h
    have hres : res = sortEvents l := by
      cases h
      rfl
    subst hres
    intro e he
    exact getStackEventsPages_mem w pages l hp e ((sortEvents_perm l).subset he)

/-- C2 (amended): `GetStackEvents` discards exactly the events strictly
before the watermark — an event at the watermark instant is retained; a
zero watermark discards nothing, returning all delivered events; and after
advancing the watermark to `max w (max timestamp of the first result)`, no
event of the second call is strictly before the new watermark. -/
theorem getStackEvents_watermark_filter (name : String) (w : Nat)
    (pages pages2 : List (PageResp StackEvent)) (pagesL : List (List StackEvent))
    (res res0 res2 : List StackEvent) (ev ev2 : StackEvent)
    (h1 : getStackEvents name w pages = .ok res) (he : ev ∈ res)
    (h2 : getStackEvents name 0 (pagesL.map fun p => Except.ok (p, true)) = .ok res0)
    (h3 : getStackEvents name (res.foldl (fun m x => max m x.timestamp) w) pages2 = .ok res2)
    (hf : ev2 ∈ res2) :
    (w = 0 ∨ w ≤ ev.timestamp) ∧
    res0.Perm pagesL.flatten ∧
    (res.foldl (fun m x => max m x.timestamp) w = 0 ∨
     res.foldl (fun m x => max m x.timestamp) w ≤ ev2.timestamp) := by
  refine ⟨?_, ?_, ?_⟩
  · exact eventAfterFilter_imp w ev (getStackEvents_ok_filter name w pages res h1 ev he)
  · unfold getStackEvents at h2
    rw [getStackEventsPages_zero pagesL] at h2
    have hres : res0 = sortEvents pagesL.flatten := by
      cases h2
      rfl
    rw [hres]
    exact sortEvents_perm _
  · exact eventAfterFilter_imp _ ev2 (getStackEvents_ok_filter name _ pages2 res2 h3 ev2 hf)

/-- C2 counterexample: with watermark 5, an event whose timestamp is
exactly 5 — at, not after, the watermark — is returned, so the claim that
every event at or before the watermark is discarded is false. -/
theorem getStackEvents_at_watermark_cex :
    getStackEvents "demo" 5 [Except.ok ([sampleEvent 5 "a"], false)] =
      .ok [sampleEvent 5 "a"] ∧ (sampleEvent 5 "a").timestamp ≤ 5 :=
  ⟨rfl, by decide⟩

/-- C2 witness: a concrete first fetch at watermark 5, a zero-watermark
fetch, and a second fetch at the advanced watermark. -/
theorem getStackEvents_watermark_filter_witness :
    getStackEvents "demo" 5 [Except.ok ([sampleEvent 5 "a", sampleEvent 7 "b"], false)] =
      .ok [sampleEvent 5 "a", sampleEvent 7 "b"] ∧
    sampleEvent 7 "b" ∈ [sampleEvent 5 "a", sampleEvent 7 "b"] ∧
    getStackEvents "demo" 0 (([[sampleEvent 2 "x"]] : List (List StackEvent)).map fun p => Except.ok (p, true)) =
      .ok [sampleEvent 2 "x"] ∧
    ((5 = 0 ∨ 5 ≤ (sampleEvent 7 "b").timestamp) ∧
     List.Perm [sampleEvent 2 "x"] ([[sampleEvent 2 "x"]] : List (List StackEvent)).flatten ∧
     (List.foldl (fun m x => max m x.timestamp) 5 [sampleEvent 5 "a", sampleEvent 7 "b"] = 0 ∨
      List.foldl (fun m x => max m x.timestamp) 5 [sampleEvent 5 "a", sampleEvent 7 "b"] ≤
        (sampleEvent 9 "c").timestamp)) :=
  ⟨rfl, by decide, rfl,
   getStackEvents_watermark_filter "demo" 5
     [Except.ok ([sampleEvent 5 "a", sampleEvent 7 "b"], false)]
     [Except.ok ([sampleEvent 9 "c"], false)]
     [[sampleEvent 2 "x"]]
     [sampleEvent 5 "a", sampleEvent 7 "b"] [sampleEvent 2 "x"] [sampleEvent 9 "c"]
     (sampleEvent 7 "b") (sampleEvent 9 "c")
     rfl (by decide) rfl rfl (by decide)⟩

/-- Unfolding the print fold of one polling iteration: the printed events
are exactly the batch events strictly after the iteration's watermark, in
batch order, and the final `tmpTime` is their running maximum. -/
theorem pollPrintStep_foldl (t : Nat) (evs : List StackEvent) (p : List StackEvent) (m : Nat) :
    evs.foldl (pollPrintStep t) (p, m) =
      (p ++ evs.filter (fun e => decide (t < e.timestamp)),
       (evs.filter (fun e => decide (t < e.timestamp))).foldl (fun a e => max a e.timestamp) m) := by
  induction evs generalizing p m with
  | nil => simp
  | cons e rest ih =>
    rw [List.foldl_cons, List.filter_cons]
    by_cases h : t < e.timestamp
    · have hstep : pollPrintStep t (p, m) e = (p ++ [e], max m e.timestamp) := by
        unfold pollPrintStep
        rw [if_pos h]
        congr 1
        split <;> omega
      rw [hstep, ih, if_pos (decide_eq_true h)]
      simp [List.append_assoc]
    · have hstep : pollPrintStep t (p, m) e = (p, m) := by
        unfold pollPrintStep
        rw [if_neg h]
      rw [hstep, ih, if_neg (by simp [h])]

/-- One polling iteration prints the fetched events strictly after the
watermark and advances the watermark to their running maximum. -/
theorem pollPrintBatch_eq (t : Nat) (evs : List StackEvent) :
    pollPrintBatch t evs =
      (evs.filter (fun e => decide (t < e.timestamp)),
       (evs.filter (fun e => decide (t < e.timestamp))).foldl (fun a e => max a e.timestamp) t) := by
  unfold pollPrintBatch
  rw [pollPrintStep_foldl]
  simp

/-- A running timestamp maximum never goes below its seed. -/
theorem le_foldl_max_ts (m : Nat) (l : List StackEvent) :
    m ≤ l.foldl (fun a e => max a e.timestamp) m := by
  induction l generalizing m with
  | nil => exact le_rfl
  | cons e rest ih =>
    rw [List.foldl_cons]
    exact le_trans (le_max_left m e.timestamp) (ih (max m e.timestamp))

/-- A running timestamp maximum bounds every member's timestamp. -/
theorem mem_le_foldl_max_ts (m : Nat) (l : List StackEvent) (e : StackEvent) (he : e ∈ l) :
    e.timestamp ≤ l.foldl (fun a x => max a x.timestamp) m := by
  induction l generalizing m with
  | nil => cases he
  | cons x rest ih =>
    rw [List.foldl_cons]
    rcases List.mem_cons.mp he with h | h
    · rw [h]
      exact le_trans (le_max_right m x.timestamp) (le_foldl_max_ts _ rest)
    · exact ih (max m x.timestamp) h

/-- A polling run's final watermark never goes below its starting value. -/
theorem pollRun_final_ge (t0 : Nat) (iters : List (List (List StackEvent))) :
    t0 ≤ (pollRun t0 iters).2 := by
  induction iters generalizing t0 with
  | nil => exact le_rfl
  | cons pages rest ih =>
    have h1 : t0 ≤ (pollPrintBatch t0 (fetchEventsOk t0 pages)).2 := by
      rw [pollPrintBatch_eq]
      exact le_foldl_max_ts t0 _
    simp only [pollRun]
    exact le_trans h1 (ih _)

/-- C8: after one polling iteration the watermark equals the running
maximum of its previous value and the printed events' timestamps, it never
regresses, only events with timestamp strictly after the iteration's
watermark are printed, and across a whole polling run the watermark never
decreases. -/
theorem pollStackEvents_watermark (t : Nat) (evs : List StackEvent) (ev : StackEvent)
    (t0 : Nat) (iters : List (List (List StackEvent)))
    (hev : ev ∈ (pollPrintBatch t evs).1) :
    (pollPrintBatch t evs).2 =
      ((pollPrintBatch t evs).1).foldl (fun m e => max m e.timestamp) t ∧
    t ≤ (pollPrintBatch t evs).2 ∧
    t < ev.timestamp ∧
    t0 ≤ (pollRun t0 iters).2 := by
  refine ⟨?_, ?_, ?_, pollRun_final_ge t0 iters⟩
  · rw [pollPrintBatch_eq]
  · rw [pollPrintBatch_eq]
    exact le_foldl_max_ts t _
  · rw [pollPrintBatch_eq] at hev
    simp [List.mem_filter] at hev
    exact hev.2

/-- C8 witness: a batch of one event with timestamp 2 against watermark 1. -/
theorem pollStackEvents_watermark_witness :
    sampleEvent 2 "r" ∈ (pollPrintBatch 1 [sampleEvent 2 "r"]).1 ∧
    ((pollPrintBatch 1 [sampleEvent 2 "r"]).2 =
       ((pollPrintBatch 1 [sampleEvent 2 "r"]).1).foldl (fun m e => max m e.timestamp) 1 ∧
     1 ≤ (pollPrintBatch 1 [sampleEvent 2 "r"]).2 ∧
     1 < (sampleEvent 2 "r").timestamp ∧
     0 ≤ (pollRun 0 []).2) :=
  ⟨by decide, pollStackEvents_watermark 1 [sampleEvent 2 "r"] (sampleEvent 2 "r") 0 [] (by decide)⟩

/-- A successful fetch whose delivered events carry pairwise-distinct
timestamps is strictly ascending. -/
theorem fetchEventsOk_pairwise_lt (t : Nat) (pages : List (List StackEvent))
    (hn : (pages.flatten.map StackEvent.timestamp).Nodup) :
    List.Pairwise (fun a b => a.timestamp < b.timestamp) (fetchEventsOk t pages) := by
  unfold fetchEventsOk
  apply pairwise_lt_of_le_nodup
  · exact sortEvents_pairwise _
  · have hsub : (pages.flatten.filter (eventAfterFilter t)).Sublist pages.flatten :=
      List.filter_sublist _
    have hn2 : ((pages.flatten.filter (eventAfterFilter t)).map StackEvent.timestamp).Nodup :=
      hn.sublist (hsub.map _)
    have hperm :=
      (sortEvents_perm (pages.flatten.filter (eventAfterFilter t))).map StackEvent.timestamp
    exact hperm.nodup_iff.mpr hn2

/-- Every event printed during a polling run is strictly after the run's
starting watermark. -/
theorem pollRun_mem_gt (t : Nat) (iters : List (List (List StackEvent))) (e : StackEvent)
    (he : e ∈ (pollRun t iters).1) : t < e.timestamp := by
  induction iters generalizing t with
  | nil =>
    simp [pollRun] at he
  | cons pages rest ih =>
    simp only [pollRun] at he
    rcases List.mem_append.mp he with h | h
    · rw [pollPrintBatch_eq] at h
      simp [List.mem_filter] at h
      exact h.2
    · have hlt := ih _ h
      have hle : t ≤ (pollPrintBatch t (fetchEventsOk t pages)).2 := by
        rw [pollPrintBatch_eq]
        exact le_foldl_max_ts t _
      omega

/-- Every event printed in one iteration is bounded by the iteration's new
watermark. -/
theorem pollPrintBatch_mem_le (t : Nat) (evs : List StackEvent) (e : StackEvent)
    (he : e ∈ (pollPrintBatch t evs).1) : e.timestamp ≤ (pollPrintBatch t evs).2 := by
  rw [pollPrintBatch_eq] at he ⊢
  exact mem_le_foldl_max_ts t _ e he

/-- C9: across a whole polling run whose iterations each deliver events
with pairwise-distinct timestamps, the printed stream is strictly
ascending in timestamp — hence no event is printed twice and the stream is
non-decreasing. -/
theorem pollRun_dedup_ordered (t0 : Nat) (iters : List (List (List StackEvent)))
    (h : ∀ pages ∈ iters, (pages.flatten.map StackEvent.timestamp).Nodup) :
    List.Pairwise (fun a b => a.timestamp < b.timestamp) (pollRun t0 iters).1 ∧
    ((pollRun t0 iters).1).Nodup ∧
    List.Pairwise (fun a b => a.timestamp ≤ b.timestamp) (pollRun t0 iters).1 := by
  have hlt : List.Pairwise (fun a b => a.timestamp < b.timestamp) (pollRun t0 iters).1 := by
    induction iters generalizing t0 with
    | nil => simp [pollRun]
    | cons pages rest ih =>
      simp only [pollRun]
      rw [List.pairwise_append]
      refine ⟨?_, ?_, ?_⟩
      · have hfl := fetchEventsOk_pairwise_lt t0 pages (h pages (List.mem_cons_self _ _))
        rw [pollPrintBatch_eq]
        exact hfl.filter _
      · exact ih _ (fun p hp => h p (List.mem_cons_of_mem _ hp))
      · intro a ha b hb
        have h1 : a.timestamp ≤ (pollPrintBatch t0 (fetchEventsOk t0 pages)).2 :=
          pollPrintBatch_mem_le t0 _ a ha
        have h2 := pollRun_mem_gt _ rest b hb
        omega
  refine ⟨hlt, ?_, hlt.imp fun hab => le_of_lt hab⟩
  exact hlt.imp fun hab heq => absurd (heq ▸ hab) (lt_irrefl _)

/-- C9 witness: two iterations delivering one event each, timestamps 2
then 3, against starting watermark 1. -/
theorem pollRun_dedup_ordered_witness :
    (∀ pages ∈ ([[[sampleEvent 2 "a"]], [[sampleEvent 3 "b"]]] : List (List (List StackEvent))),
       (pages.flatten.map StackEvent.timestamp).Nodup) ∧
    (List.Pairwise (fun a b => a.timestamp < b.timestamp)
       (pollRun 1 [[[sampleEvent 2 "a"]], [[sampleEvent 3 "b"]]]).1 ∧
     ((pollRun 1 [[[sampleEvent 2 "a"]], [[sampleEvent 3 "b"]]]).1).Nodup ∧
     List.Pairwise (fun a b => a.timestamp ≤ b.timestamp)
       (pollRun 1 [[[sampleEvent 2 "a"]], [[sampleEvent 3 "b"]]]).1) :=
  ⟨by decide, pollRun_dedup_ordered 1 [[[sampleEvent 2 "a"]], [[sampleEvent 3 "b"]]] (by decide)⟩

end Cfctl
